import Mathlib

/-!
Shallow embedding of the persistence and gallery logic of the Kolam Art
Studio application (`src/main3.py`).

Modelling conventions, matching the SQLite-backed source:

* The database (`kolam_art.db`) is a `DbState`: the `users` and `artworks`
  tables as lists in row (insertion) order; rows are never deleted, and
  `INTEGER PRIMARY KEY` ids are assigned as SQLite assigns rowids to an
  append-only table: `length + 1`.
* Timestamps (`datetime.datetime.now().isoformat()`) are modelled as `Nat`
  values passed in as a `now` argument; ISO-format timestamp strings compare
  lexicographically exactly as the instants they denote compare, so a totally
  ordered `Nat` clock is faithful to `ORDER BY created_at`.
* `hashlib.sha256(...).hexdigest()` is modelled as an abstract hash function
  parameter `h : String → String`; properties that need collision-freedom
  take injectivity of `h` as a hypothesis.
* Each SQL statement (`INSERT`, one-statement `UPDATE`, `SELECT`) executes
  atomically in SQLite, so each operation is a single state transition;
  a concurrent schedule of such operations is an interleaving, i.e. some
  sequential composition of the same transitions.
-/

/-- A row of the `users` table:
`(id INTEGER PRIMARY KEY, username TEXT UNIQUE, password TEXT, created_at TEXT)`.
`password` stores the hash, as in the source. -/
structure UserRow where
  id : Nat
  username : String
  password : String
  created_at : Nat
deriving DecidableEq, Repr

/-- A row of the `artworks` table:
`(id INTEGER PRIMARY KEY, user_id INTEGER, title TEXT, image_data TEXT,
likes INTEGER DEFAULT 0, created_at TEXT)`. -/
structure ArtworkRow where
  id : Nat
  user_id : Nat
  title : String
  image_data : String
  likes : Nat
  created_at : Nat
deriving DecidableEq, Repr

/-- The database state: the two live tables, in row (insertion) order.
The `comments` table is declared in `init_db` but never read or written,
so it is omitted. -/
structure DbState where
  users : List UserRow
  artworks : List ArtworkRow
deriving DecidableEq, Repr

/-- `create_user(username, password)` (main3.py:79-90): INSERT the username,
the hashed password and the current timestamp; the UNIQUE constraint on
`username` makes the INSERT raise `IntegrityError` when the username is
already present, in which case the function returns `False` and the open
transaction is discarded (no commit), leaving the store unchanged. -/
def create_user (h : String → String) (now : Nat) (s : DbState)
    (username password : String) : Bool × DbState :=
  if s.users.any (fun u => u.username == username) then
    (false, s)
  else
    (true, { s with
      users := s.users ++ [⟨s.users.length + 1, username, h password, now⟩] })

/-- `authenticate_user(username, password)` (main3.py:92-99):
`SELECT id FROM users WHERE username = ? AND password = ?` with the hashed
password, `fetchone` returning the first matching row in table order;
the result is the row's id, or `None` when no row matches. -/
def authenticate_user (h : String → String) (s : DbState)
    (username password : String) : Option Nat :=
  (s.users.find? (fun u => u.username == username && u.password == h password)).map
    (fun u => u.id)

/-- `save_artwork(user_id, title, image_data)` (main3.py:102-108): INSERT a
new artwork row with the current timestamp; `likes` takes its schema
default 0. The Python function has no `return` statement, so its value is
`None`, modelled as the `Option Nat` component `none`. -/
def save_artwork (now : Nat) (s : DbState) (user_id : Nat)
    (title image_data : String) : DbState × Option Nat :=
  ({ s with artworks :=
      s.artworks ++ [⟨s.artworks.length + 1, user_id, title, image_data, 0, now⟩] },
   none)

/-- `like_artwork(artwork_id)` (main3.py:120-125): the single statement
`UPDATE artworks SET likes = likes + 1 WHERE id = ?` — one atomic
read-modify-write; rows whose id does not match are untouched, and an id
matching no row updates nothing. -/
def like_artwork (s : DbState) (artwork_id : Nat) : DbState :=
  { s with artworks := s.artworks.map (fun a =>
      if a.id == artwork_id then { a with likes := a.likes + 1 } else a) }

/-- One row of the `get_artworks` result:
`SELECT a.id, a.title, a.image_data, a.likes, a.created_at, u.username`. -/
structure GalleryRow where
  id : Nat
  title : String
  image_data : String
  likes : Nat
  created_at : Nat
  username : String
deriving DecidableEq, Repr

/-- The inner join `FROM artworks a JOIN users u ON a.user_id = u.id`, in
table order of `artworks`: each artwork paired with its owner's username;
artworks whose `user_id` matches no user produce no row. -/
def joinRows (s : DbState) : List GalleryRow :=
  s.artworks.filterMap (fun a =>
    (s.users.find? (fun u => u.id == a.user_id)).map (fun u =>
      ⟨a.id, a.title, a.image_data, a.likes, a.created_at, u.username⟩))

/-- Insert a row into a list already sorted by `created_at` descending,
placing it after every strictly newer row and before the first row that is
not newer — i.e. before rows with equal `created_at`, which keeps elements
inserted earlier (scanned earlier from the table) first among ties. -/
def insertDesc (r : GalleryRow) : List GalleryRow → List GalleryRow
  | [] => [r]
  | x :: xs =>
    if r.created_at < x.created_at then x :: insertDesc r xs
    else r :: x :: xs

/-- Stable sort by `created_at` descending, modelling
`ORDER BY a.created_at DESC` over the join scan. -/
def sortDesc : List GalleryRow → List GalleryRow
  | [] => []
  | x :: xs => insertDesc x (sortDesc xs)

/-- `get_artworks()` (main3.py:110-118): the artworks/users join ordered by
creation time, newest first. -/
def get_artworks (s : DbState) : List GalleryRow :=
  sortDesc (joinRows s)

/-- The `continue` condition of the Community Gallery loop (main3.py:251):
a row is skipped exactly when the search term is non-empty and its
lowercasing occurs as a substring in neither the lowercased title nor the
lowercased artist name. `occursIn` is Python's `in` on strings. -/
def startsList : List Char → List Char → Bool
  | _, [] => true
  | [], _ :: _ => false
  | c :: t, d :: n => c == d && startsList t n

/-- Whether `needle` occurs as a contiguous substring of `hay`
(Python's `needle in hay` for strings). -/
def occursIn (needle : List Char) : List Char → Bool
  | [] => needle.isEmpty
  | c :: t => startsList (c :: t) needle || occursIn needle t

/-- The skip test of main3.py:251:
`search_term and search_term.lower() not in title.lower() and
search_term.lower() not in artist.lower()`. -/
def rowSkipped (term : String) (r : GalleryRow) : Bool :=
  term != "" && !occursIn term.toLower.toList r.title.toLower.toList
    && !occursIn term.toLower.toList r.username.toLower.toList

/-- The rows the gallery loop keeps: the result list with skipped rows
removed, in order. -/
def filterBySearchTerm (rows : List GalleryRow) (term : String) : List GalleryRow :=
  rows.filter (fun r => !rowSkipped term r)

/-- The sequence of artworks the Community Gallery page displays
(main3.py:233-252): `get_artworks()` filtered by the search term. The
`sort_by` selectbox value ("Newest" or "Most Liked") is read but never
used anywhere in the page. -/
def galleryPageRows (s : DbState) (search_term sort_by : String) : List GalleryRow :=
  filterBySearchTerm (get_artworks s) search_term

/-- The like count the gallery shows for artwork `aid`: the `likes` field
of the first stored row with that id, if any. -/
def likesOf (s : DbState) (aid : Nat) : Option Nat :=
  (s.artworks.find? (fun a => a.id == aid)).map (fun a => a.likes)

/-- Overwrite position `i` of the session list (Streamlit assignment to
`st.session_state.user_id` for one browser session); out-of-range indices
change nothing. -/
def setSession : List (Option Nat) → Nat → Option Nat → List (Option Nat)
  | [], _, _ => []
  | _ :: t, 0, v => v :: t
  | x :: t, n + 1, v => x :: setSession t n v

/-- The application state: the shared database plus one
`st.session_state.user_id` slot per open browser session. -/
structure AppState where
  db : DbState
  sessions : List (Option Nat)
deriving DecidableEq, Repr

/-- The states the application can reach from an empty database, through
the interactions main3.py wires to the store (parametrised by the password
hash `h`):
* a new browser session starts logged out (main3.py:131-132);
* Sign Up calls `create_user` and does not log in (main3.py:158-162);
* Login stores `authenticate_user`'s id only when it is non-`None`
  (main3.py:163-171);
* Logout clears the session (main3.py:174-177);
* Save Artwork passes the logged-in session's `user_id` to `save_artwork`
  (main3.py:216-227);
* the like button calls `like_artwork` (main3.py:275-277). -/
inductive Reachable (h : String → String) : AppState → Prop
  | init : Reachable h ⟨⟨[], []⟩, []⟩
  | newSession {s : AppState} : Reachable h s →
      Reachable h ⟨s.db, s.sessions ++ [none]⟩
  | signup {s : AppState} (now : Nat) (u p : String) : Reachable h s →
      Reachable h ⟨(create_user h now s.db u p).2, s.sessions⟩
  | login {s : AppState} (i : Nat) (u p : String) (uid : Nat)
      (hauth : authenticate_user h s.db u p = some uid) : Reachable h s →
      Reachable h ⟨s.db, setSession s.sessions i (some uid)⟩
  | logout {s : AppState} (i : Nat) : Reachable h s →
      Reachable h ⟨s.db, setSession s.sessions i none⟩
  | save {s : AppState} (i uid now : Nat) (title image_data : String)
      (hsess : s.sessions[i]? = some (some uid)) : Reachable h s →
      Reachable h ⟨(save_artwork now s.db uid title image_data).1, s.sessions⟩
  | like {s : AppState} (aid : Nat) : Reachable h s →
      Reachable h ⟨like_artwork s.db aid, s.sessions⟩

/-- Every logged-in session holds the id of an existing user. -/
def SessionsOk (s : AppState) : Prop :=
  ∀ uid : Nat, some uid ∈ s.sessions → ∃ u ∈ s.db.users, u.id = uid

/-- The referential-integrity invariant: every artwork's `user_id` is the
id of an existing user row. -/
def FkOk (db : DbState) : Prop :=
  ∀ a ∈ db.artworks, ∃ u ∈ db.users, u.id = a.user_id

/-- Artwork ids are exactly `1, 2, …, n` in table order, as SQLite assigns
rowids to an append-only table. -/
def ArtIdsSeq (db : DbState) : Prop :=
  db.artworks.map (fun a => a.id) = List.range' 1 db.artworks.length

/-- `find?` skips a block of elements on which the predicate is false. -/
theorem find?_append_none {α : Type} (p : α → Bool) {l1 : List α} (l2 : List α)
    (hn : ∀ x ∈ l1, p x = false) :
    List.find? p (l1 ++ l2) = List.find? p l2 := by
  induction l1 with
  | nil => rfl
  | cons a t ih =>
    have ha := hn a (List.mem_cons_self a t)
    simp only [List.cons_append, List.find?_cons, ha]
    exact ih (fun x hx => hn x (List.mem_cons_of_mem _ hx))

/-- C2: creating an account with a username not already taken and then
authenticating with the same credentials returns `some id`, where `id`
(`|users| + 1`) is the id of the user row that the account creation
appended. -/
theorem createAccount_then_authenticate (h : String → String) (now : Nat)
    (s : DbState) (u p : String)
    (hfree : ∀ usr ∈ s.users, usr.username ≠ u) :
    authenticate_user h (create_user h now s u p).2 u p = some (s.users.length + 1) ∧
    (⟨s.users.length + 1, u, h p, now⟩ : UserRow) ∈ (create_user h now s u p).2.users := by
  have hany : (s.users.any fun usr => usr.username == u) = false := by
    cases hc : s.users.any fun usr => usr.username == u with
    | false => rfl
    | true =>
      obtain ⟨x, hx, hbeq⟩ := List.any_eq_true.mp hc
      exact absurd (by simpa using hbeq) (hfree x hx)
  have husers : (create_user h now s u p).2.users
      = s.users ++ [⟨s.users.length + 1, u, h p, now⟩] := by
    simp [create_user, hany]
  constructor
  · rw [authenticate_user, husers,
      find?_append_none _ _ (fun x hx => by simp [hfree x hx])]
    simp [List.find?_cons]
  · rw [husers]
    exact List.mem_append_right _ (List.mem_singleton_self _)

/-- C2 witness: on an empty store, creating "asha"/"pass123" and then
authenticating returns the created id 1. -/
theorem createAccount_then_authenticate_witness :
    authenticate_user (fun x => x)
        (create_user (fun x => x) 0 ⟨[], []⟩ "asha" "pass123").2 "asha" "pass123"
      = some 1 ∧
    (⟨1, "asha", "pass123", 0⟩ : UserRow)
      ∈ (create_user (fun x => x) 0 ⟨[], []⟩ "asha" "pass123").2.users :=
  createAccount_then_authenticate (fun x => x) 0 ⟨[], []⟩ "asha" "pass123"
    (by intro usr husr; simp at husr)

/-- C3: creating an account whose username is already present returns the
failure flag `False` and leaves the whole store (in particular the user
set) unchanged. -/
theorem createAccount_duplicate_rejected (h : String → String) (now : Nat)
    (s : DbState) (u p : String)
    (hdup : ∃ usr ∈ s.users, usr.username = u) :
    create_user h now s u p = (false, s) := by
  obtain ⟨x, hx, hxu⟩ := hdup
  have hany : (s.users.any fun usr => usr.username == u) = true :=
    List.any_eq_true.mpr ⟨x, hx, by simp [hxu]⟩
  simp [create_user, hany]

/-- C3 witness: re-creating the taken username "asha" fails and changes
nothing, whatever the new password. -/
theorem createAccount_duplicate_rejected_witness :
    (∃ usr ∈ (⟨[⟨1, "asha", "pass123", 0⟩], []⟩ : DbState).users,
        usr.username = "asha") ∧
    create_user (fun x => x) 5 ⟨[⟨1, "asha", "pass123", 0⟩], []⟩ "asha" "other"
      = (false, ⟨[⟨1, "asha", "pass123", 0⟩], []⟩) :=
  ⟨by decide,
   createAccount_duplicate_rejected (fun x => x) 5 _ "asha" "other" (by decide)⟩

/-- C8: when every stored row for username `u` carries the hash of the
original password `p` and the hash has no collisions, authenticating `u`
with any other password `p'` returns `none`. -/
theorem authenticate_wrong_password (h : String → String)
    (hinj : ∀ a b, h a = h b → a = b) (s : DbState) (u p p' : String)
    (hpres : ∃ usr ∈ s.users, usr.username = u)
    (hstored : ∀ usr ∈ s.users, usr.username = u → usr.password = h p)
    (hne : p' ≠ p) :
    authenticate_user h s u p' = none := by
  have hfind : s.users.find?
      (fun usr => usr.username == u && usr.password == h p') = none := by
    rw [List.find?_eq_none]
    intro x hx
    by_cases hxu : x.username = u
    · have hpw : x.password = h p := hstored x hx hxu
      have hnehash : h p ≠ h p' := fun hcol => hne (hinj p' p hcol.symm)
      simp [hxu, hpw, hnehash]
    · simp [hxu]
  simp [authenticate_user, hfind]

/-- C8 witness: with "asha" stored under password "pass123", authenticating
with "wrong" yields no identity. -/
theorem authenticate_wrong_password_witness :
    (∃ usr ∈ (⟨[⟨1, "asha", "pass123", 0⟩], []⟩ : DbState).users,
        usr.username = "asha") ∧
    authenticate_user (fun x => x) ⟨[⟨1, "asha", "pass123", 0⟩], []⟩
      "asha" "wrong" = none :=
  ⟨by decide,
   authenticate_wrong_password (fun x => x) (fun _ _ hab => hab)
     ⟨[⟨1, "asha", "pass123", 0⟩], []⟩ "asha" "pass123" "wrong"
     (by decide) (by decide) (by decide)⟩

/-- One like is one atomic `UPDATE … SET likes = likes + 1`: the displayed
count of the targeted artwork goes up by exactly one, whether or not the
id is present (absent: `none` stays `none`). -/
theorem likesOf_like_artwork (s : DbState) (aid : Nat) :
    likesOf (like_artwork s aid) aid = (likesOf s aid).map (fun k => k + 1) := by
  show (((s.artworks.map fun a =>
      if a.id == aid then { a with likes := a.likes + 1 } else a).find?
        (fun a => a.id == aid)).map fun a => a.likes)
    = ((s.artworks.find? fun a => a.id == aid).map fun a => a.likes).map
        (fun k => k + 1)
  induction s.artworks with
  | nil => rfl
  | cons a t ih =>
    by_cases ha : a.id = aid
    · simp [List.find?_cons, ha]
    · have ha' : (a.id == aid) = false := by simp [ha]
      simp only [List.map_cons, List.find?_cons, ha', if_neg, Bool.false_eq_true,
        if_false]
      simpa [ha'] using ih

/-- C1: N like calls for an artwork present in the store raise its counter
by exactly N. Each call is the single atomic statement
`UPDATE artworks SET likes = likes + 1 WHERE id = ?`, so a concurrent
schedule of N independent callers is an interleaving of N whole
transitions — some sequential composition of N applications of
`like_artwork`, which is what is iterated here; no schedule loses an
update. -/
theorem like_n_times_adds_n (s : DbState) (aid k n : Nat)
    (hk : likesOf s aid = some k) :
    likesOf (Nat.iterate (fun t => like_artwork t aid) n s) aid = some (k + n) := by
  induction n generalizing s k with
  | zero => simpa using hk
  | succ m ih =>
    have hstep : likesOf (like_artwork s aid) aid = some (k + 1) := by
      rw [likesOf_like_artwork, hk]
      rfl
    have := ih (like_artwork s aid) (k + 1) hstep
    rw [show Nat.iterate (fun t => like_artwork t aid) (m + 1) s
        = Nat.iterate (fun t => like_artwork t aid) m (like_artwork s aid) from rfl,
      this]
    congr 1
    omega

/-- C1 witness: liking the single stored artwork (id 1, 0 likes) three
times leaves it with exactly 3 likes. -/
theorem like_n_times_adds_n_witness :
    likesOf (⟨[⟨1, "asha", "pass123", 0⟩],
              [⟨1, 1, "Sunrise", "img", 0, 2⟩]⟩ : DbState) 1 = some 0 ∧
    likesOf (Nat.iterate (fun t => like_artwork t 1) 3
      ⟨[⟨1, "asha", "pass123", 0⟩], [⟨1, 1, "Sunrise", "img", 0, 2⟩]⟩) 1
      = some 3 :=
  ⟨by decide,
   like_n_times_adds_n ⟨[⟨1, "asha", "pass123", 0⟩],
     [⟨1, 1, "Sunrise", "img", 0, 2⟩]⟩ 1 0 3 (by decide)⟩

/-- C10: liking an id that matches no stored artwork is a normal no-op:
the `UPDATE` matches zero rows, no exception is raised, and the store is
returned unchanged. -/
theorem like_absent_id_noop (s : DbState) (aid : Nat)
    (habsent : ∀ a ∈ s.artworks, a.id ≠ aid) :
    like_artwork s aid = s := by
  have hmap : (s.artworks.map fun a =>
      if a.id == aid then { a with likes := a.likes + 1 } else a) = s.artworks := by
    rw [List.map_congr_left (g := id) (fun a ha => by simp [habsent a ha]),
      List.map_id]
  cases s with
  | mk users artworks => simp [like_artwork] at hmap ⊢; exact hmap

/-- C10 witness: liking absent id 7 leaves a one-artwork store unchanged. -/
theorem like_absent_id_noop_witness :
    like_artwork (⟨[⟨1, "asha", "pass123", 0⟩],
      [⟨1, 1, "Sunrise", "img", 0, 2⟩]⟩ : DbState) 7
    = ⟨[⟨1, "asha", "pass123", 0⟩], [⟨1, 1, "Sunrise", "img", 0, 2⟩]⟩ :=
  like_absent_id_noop _ 7 (by decide)

/-- C6 (amended): `save_artwork` appends exactly one new artwork row —
likes 0, the supplied owner, title and image data, the current timestamp,
and the next sequential id — and leaves the users table untouched; the
function itself returns no value (Python `None`). -/
theorem saveArtwork_inserts_one_row (now : Nat) (s : DbState) (uid : Nat)
    (title image_data : String) :
    (save_artwork now s uid title image_data).1.users = s.users ∧
    (save_artwork now s uid title image_data).1.artworks
      = s.artworks ++ [⟨s.artworks.length + 1, uid, title, image_data, 0, now⟩] ∧
    (save_artwork now s uid title image_data).1.artworks.length
      = s.artworks.length + 1 ∧
    (save_artwork now s uid title image_data).2 = none :=
  ⟨rfl, rfl, by simp [save_artwork], rfl⟩

/-- C6 counterexample: on an empty store the inserted artwork's id is 1,
but the call returns `none` (Python `None`), not `some 1`: the claim that
`save_artwork` returns the new artwork's id is false. -/
theorem saveArtwork_does_not_return_id :
    ((save_artwork 5 ⟨[⟨1, "asha", "pass123", 0⟩], []⟩ 1 "Sunrise" "img").1.artworks.map
        (fun a => a.id) = [1]) ∧
    (save_artwork 5 ⟨[⟨1, "asha", "pass123", 0⟩], []⟩ 1 "Sunrise" "img").2 ≠ some 1 := by
  constructor
  · rfl
  · intro hc
    cases hc

/-- C9: the sequence of artworks the Community Gallery displays does not
depend on the "Sort by" selection — replacing "Newest" by "Most Liked"
(or any other value) yields the identical sequence, because `sort_by` is
read but never applied. -/
theorem gallery_independent_of_sort_selection (s : DbState)
    (term sb1 sb2 : String) :
    galleryPageRows s term sb1 = galleryPageRows s term sb2 := rfl

/-- `startsList hay n` decides whether `n` is an initial segment of `hay`. -/
theorem startsList_iff (n : List Char) : ∀ hay : List Char,
    startsList hay n = true ↔ ∃ t, hay = n ++ t := by
  induction n with
  | nil =>
    intro hay
    cases hay <;> simp [startsList]
  | cons d m ih =>
    intro hay
    cases hay with
    | nil => simp [startsList]
    | cons c t =>
      rw [show startsList (c :: t) (d :: m) = (c == d && startsList t m) from rfl]
      simp only [Bool.and_eq_true, beq_iff_eq, ih t, List.cons_append]
      constructor
      · rintro ⟨rfl, u, rfl⟩
        exact ⟨u, rfl⟩
      · rintro ⟨u, hu⟩
        injection hu with h1 h2
        exact ⟨h1, u, h2⟩

/-- `occursIn n hay` decides whether `n` occurs contiguously inside `hay`,
i.e. Python's `n in hay` for strings. -/
theorem occursIn_iff (n : List Char) : ∀ hay : List Char,
    occursIn n hay = true ↔ ∃ x y, hay = x ++ n ++ y := by
  intro hay
  induction hay with
  | nil =>
    rw [show occursIn n [] = n.isEmpty from rfl]
    constructor
    · intro hemp
      exact ⟨[], [], by simp [List.isEmpty_iff.mp hemp]⟩
    · rintro ⟨x, y, hx⟩
      rw [eq_comm] at hx
      simp only [List.append_eq_nil, List.append_assoc] at hx
      simp [List.isEmpty_iff, hx.2.1]
  | cons c t ih =>
    rw [show occursIn n (c :: t) = (startsList (c :: t) n || occursIn n t) from rfl]
    simp only [Bool.or_eq_true, startsList_iff, ih]
    constructor
    · rintro (⟨u, hu⟩ | ⟨x, y, rfl⟩)
      · exact ⟨[], u, by simpa using hu⟩
      · exact ⟨c :: x, y, rfl⟩
    · rintro ⟨x, y, hxy⟩
      cases x with
      | nil =>
        left
        exact ⟨y, by simpa using hxy⟩
      | cons a x' =>
        right
        injection hxy with h1 h2
        exact ⟨x', y, h2⟩

/-- C5: the gallery search keeps exactly the rows whose lowercased title or
lowercased owner username contains the lowercased term as a contiguous
substring; it is a subsequence of its input, and the empty term keeps the
input unchanged. -/
theorem filterBySearchTerm_spec (rows : List GalleryRow) (term : String) :
    filterBySearchTerm rows "" = rows ∧
    (filterBySearchTerm rows term).Sublist rows ∧
    (∀ r, r ∈ filterBySearchTerm rows term ↔
      r ∈ rows ∧ (term = "" ∨
        (∃ x y, r.title.toLower.toList = x ++ term.toLower.toList ++ y) ∨
        (∃ x y, r.username.toLower.toList = x ++ term.toLower.toList ++ y))) := by
  refine ⟨?_, List.filter_sublist rows, ?_⟩
  · rw [filterBySearchTerm, List.filter_eq_self]
    intro r _
    simp [rowSkipped]
  · intro r
    rw [filterBySearchTerm, List.mem_filter]
    by_cases hterm : term = ""
    · simp [hterm, rowSkipped]
    · simp [rowSkipped, hterm, occursIn_iff, Bool.not_eq_true',
        Bool.and_eq_false_iff, Bool.not_eq_false']

/-- The strict display order of the gallery listing: strictly newer rows
first; among rows created at the same instant, the earlier-inserted
(smaller id) row first. -/
def galleryBefore (a b : GalleryRow) : Prop :=
  b.created_at < a.created_at ∨ (a.created_at = b.created_at ∧ a.id < b.id)

/-- Inserting into the descending sort yields a permutation of consing. -/
theorem insertDesc_perm (r : GalleryRow) : ∀ l, (insertDesc r l).Perm (r :: l) := by
  intro l
  induction l with
  | nil => exact List.Perm.refl _
  | cons x xs ih =>
    simp only [insertDesc]
    by_cases hlt : r.created_at < x.created_at
    · rw [if_pos hlt]
      exact (ih.cons x).trans (List.Perm.swap r x xs)
    · rw [if_neg hlt]

/-- Stable insertion preserves the strict display order, provided the
inserted row's id is below every id already present (it was scanned
earlier than all of them). -/
theorem insertDesc_pairwise (r : GalleryRow) :
    ∀ m, List.Pairwise galleryBefore m → (∀ b ∈ m, r.id < b.id) →
      List.Pairwise galleryBefore (insertDesc r m) := by
  intro m
  induction m with
  | nil =>
    intro _ _
    simp [insertDesc]
  | cons x t ih =>
    intro hp hid
    obtain ⟨hx, ht⟩ := List.pairwise_cons.mp hp
    simp only [insertDesc]
    by_cases hlt : r.created_at < x.created_at
    · rw [if_pos hlt]
      refine List.pairwise_cons.mpr
        ⟨?_, ih ht (fun b hb => hid b (List.mem_cons_of_mem _ hb))⟩
      intro y hy
      have hy' : y = r ∨ y ∈ t := by
        simpa using (insertDesc_perm r t).mem_iff.mp hy
      cases hy' with
      | inl hyr =>
        subst hyr
        exact Or.inl hlt
      | inr hyt => exact hx y hyt
    · rw [if_neg hlt]
      have hxr : x.created_at ≤ r.created_at := Nat.le_of_not_lt hlt
      refine List.pairwise_cons.mpr ⟨?_, hp⟩
      intro y hy
      have hy' : y = x ∨ y ∈ t := by simpa using hy
      cases hy' with
      | inl hyx =>
        subst hyx
        rcases Nat.lt_or_ge y.created_at r.created_at with hlt2 | hge
        · exact Or.inl hlt2
        · exact Or.inr ⟨Nat.le_antisymm hge hxr, hid y (List.mem_cons_self y t)⟩
      | inr hyt =>
        cases hx y hyt with
        | inl h1 => exact Or.inl (Nat.lt_of_lt_of_le h1 hxr)
        | inr h2 =>
          rcases Nat.lt_or_ge y.created_at r.created_at with hlt2 | hge
          · exact Or.inl hlt2
          · refine Or.inr ⟨?_, hid y (List.mem_cons_of_mem _ hyt)⟩
            omega

/-- The sort output is a permutation of its input. -/
theorem sortDesc_perm : ∀ l, (sortDesc l).Perm l := by
  intro l
  induction l with
  | nil => exact List.Perm.refl _
  | cons x xs ih => exact (insertDesc_perm x (sortDesc xs)).trans (ih.cons x)

/-- Sorting a scan whose ids strictly increase produces the strict display
order: newest first, ties in scan (insertion) order. -/
theorem sortDesc_pairwise :
    ∀ l, List.Pairwise (fun a b : GalleryRow => a.id < b.id) l →
      List.Pairwise galleryBefore (sortDesc l) := by
  intro l
  induction l with
  | nil => intro _; exact List.Pairwise.nil
  | cons x xs ih =>
    intro hp
    obtain ⟨hx, hxs⟩ := List.pairwise_cons.mp hp
    simp only [sortDesc]
    exact insertDesc_pairwise x (sortDesc xs) (ih hxs)
      (fun b hb => hx b ((sortDesc_perm xs).mem_iff.mp hb))

/-- The join scan preserves the strictly increasing artwork ids. -/
theorem joinRows_ids_pairwise (s : DbState)
    (hids : List.Pairwise (fun a b : ArtworkRow => a.id < b.id) s.artworks) :
    List.Pairwise (fun a b : GalleryRow => a.id < b.id) (joinRows s) := by
  rw [joinRows, List.pairwise_filterMap]
  refine hids.imp ?_
  intro a b hab x hx y hy
  have hxid : x.id = a.id := by
    cases hu : s.users.find? (fun u => u.id == a.user_id) with
    | none => rw [hu] at hx; simp at hx
    | some u =>
      rw [hu] at hx
      simp at hx
      rw [← hx]
  have hyid : y.id = b.id := by
    cases hu : s.users.find? (fun u => u.id == b.user_id) with
    | none => rw [hu] at hy; simp at hy
    | some u =>
      rw [hu] at hy
      simp at hy
      rw [← hy]
  rw [hxid, hyid]
  exact hab

/-- C4: when the stored artworks carry strictly increasing ids (ids are
assigned sequentially, so id order is insertion order), `get_artworks`
returns a permutation of the artwork/owner join — one row per joinable
stored artwork — arranged so that every pair of displayed rows is in
strictly descending creation time, with rows of equal creation time in
insertion (id) order. -/
theorem listAll_ordering (s : DbState)
    (hids : List.Pairwise (fun a b : ArtworkRow => a.id < b.id) s.artworks) :
    (get_artworks s).Perm (joinRows s) ∧
    List.Pairwise galleryBefore (get_artworks s) :=
  ⟨sortDesc_perm _, sortDesc_pairwise _ (joinRows_ids_pairwise s hids)⟩

/-- C4 witness: three artworks, two sharing a creation time, listed
newest-first with the tie in insertion order. -/
theorem listAll_ordering_witness :
    List.Pairwise (fun a b : ArtworkRow => a.id < b.id)
      (⟨[⟨1, "asha", "pass123", 0⟩],
        [⟨1, 1, "A", "i", 0, 5⟩, ⟨2, 1, "B", "i", 0, 9⟩,
         ⟨3, 1, "C", "i", 0, 9⟩]⟩ : DbState).artworks ∧
    ((get_artworks ⟨[⟨1, "asha", "pass123", 0⟩],
        [⟨1, 1, "A", "i", 0, 5⟩, ⟨2, 1, "B", "i", 0, 9⟩,
         ⟨3, 1, "C", "i", 0, 9⟩]⟩).Perm
       (joinRows ⟨[⟨1, "asha", "pass123", 0⟩],
        [⟨1, 1, "A", "i", 0, 5⟩, ⟨2, 1, "B", "i", 0, 9⟩,
         ⟨3, 1, "C", "i", 0, 9⟩]⟩) ∧
     List.Pairwise galleryBefore
       (get_artworks ⟨[⟨1, "asha", "pass123", 0⟩],
        [⟨1, 1, "A", "i", 0, 5⟩, ⟨2, 1, "B", "i", 0, 9⟩,
         ⟨3, 1, "C", "i", 0, 9⟩]⟩)) := by
  refine ⟨?_, listAll_ordering _ ?_⟩ <;>
    exact List.Pairwise.cons (by intro b hb; fin_cases hb <;> decide)
      (List.Pairwise.cons (by intro b hb; fin_cases hb <;> decide)
        (List.Pairwise.cons (by intro b hb; fin_cases hb) List.Pairwise.nil))

/-- Every element of a session list after an assignment is either the
assigned value or was already present. -/
theorem mem_setSession {v x : Option Nat} :
    ∀ (l : List (Option Nat)) (i : Nat), x ∈ setSession l i v → x = v ∨ x ∈ l := by
  intro l
  induction l with
  | nil =>
    intro i hx
    simp [setSession] at hx
  | cons a t ih =>
    intro i hx
    cases i with
    | zero =>
      simp only [setSession] at hx
      rcases List.mem_cons.mp hx with hh | hh
      · exact Or.inl hh
      · exact Or.inr (List.mem_cons_of_mem _ hh)
    | succ n =>
      simp only [setSession] at hx
      rcases List.mem_cons.mp hx with hh | hh
      · exact Or.inr (hh ▸ List.mem_cons_self a t)
      · rcases ih n hh with hh' | hh'
        · exact Or.inl hh'
        · exact Or.inr (List.mem_cons_of_mem _ hh')

/-- Account creation never removes a user row. -/
theorem create_user_users_mono (h : String → String) (now : Nat) (s : DbState)
    (u p : String) : ∀ x ∈ s.users, x ∈ (create_user h now s u p).2.users := by
  intro x hx
  cases hc : s.users.any fun usr => usr.username == u with
  | true => simpa [create_user, hc] using hx
  | false =>
    simp only [create_user, hc, Bool.false_eq_true, if_false]
    exact List.mem_append_left _ hx

/-- Account creation never touches the artworks table. -/
theorem create_user_artworks (h : String → String) (now : Nat) (s : DbState)
    (u p : String) : (create_user h now s u p).2.artworks = s.artworks := by
  cases hc : s.users.any fun usr => usr.username == u <;> simp [create_user, hc]

/-- A successful authentication returns the id of a stored user row. -/
theorem authenticate_user_mem (h : String → String) (s : DbState) (u p : String)
    (uid : Nat) (hauth : authenticate_user h s u p = some uid) :
    ∃ usr ∈ s.users, usr.id = uid := by
  unfold authenticate_user at hauth
  cases hfind : s.users.find?
      (fun usr => usr.username == u && usr.password == h p) with
  | none => rw [hfind] at hauth; cases hauth
  | some usr =>
    rw [hfind] at hauth
    simp only [Option.map_some', Option.some.injEq] at hauth
    exact ⟨usr, List.mem_of_find?_eq_some hfind, hauth⟩

/-- The like update preserves referential integrity: it changes no
`user_id` and no user row. -/
theorem like_artwork_fk (s : DbState) (aid : Nat) (hf : FkOk s) :
    FkOk (like_artwork s aid) := by
  intro a ha
  obtain ⟨a', ha', rfl⟩ := List.mem_map.mp ha
  rcases hf a' ha' with ⟨u, hu, huid⟩
  refine ⟨u, hu, ?_⟩
  cases hid : a'.id == aid <;> simp [hid, huid]

/-- Invariant of every reachable application state: each logged-in session
holds an existing user's id, and each artwork's `user_id` references an
existing user row. -/
theorem reachable_inv {h : String → String} {s : AppState}
    (hr : Reachable h s) : SessionsOk s ∧ FkOk s.db := by
  induction hr with
  | init =>
    constructor
    · intro uid hmem
      simp at hmem
    · intro a ha
      simp at ha
  | newSession hr ih =>
    obtain ⟨hs, hf⟩ := ih
    refine ⟨?_, hf⟩
    intro uid hmem
    rcases List.mem_append.mp hmem with hm | hm
    · exact hs uid hm
    · simp at hm
  | signup now u p hr ih =>
    obtain ⟨hs, hf⟩ := ih
    constructor
    · intro uid hmem
      rcases hs uid hmem with ⟨usr, husr, hid⟩
      exact ⟨usr, create_user_users_mono _ _ _ _ _ usr husr, hid⟩
    · intro a ha
      rw [create_user_artworks] at ha
      rcases hf a ha with ⟨usr, husr, hid⟩
      exact ⟨usr, create_user_users_mono _ _ _ _ _ usr husr, hid⟩
  | login i u p uid hauth hr ih =>
    obtain ⟨hs, hf⟩ := ih
    refine ⟨?_, hf⟩
    intro uid' hmem
    rcases mem_setSession _ _ hmem with hv | hold
    · obtain ⟨usr, husr, hid⟩ := authenticate_user_mem h _ u p uid hauth
      have : uid' = uid := by injection hv
      exact ⟨usr, husr, this ▸ hid⟩
    · exact hs uid' hold
  | logout i hr ih =>
    obtain ⟨hs, hf⟩ := ih
    refine ⟨?_, hf⟩
    intro uid' hmem
    rcases mem_setSession _ _ hmem with hv | hold
    · cases hv
    · exact hs uid' hold
  | save i uid now title image_data hsess hr ih =>
    obtain ⟨hs, hf⟩ := ih
    constructor
    · intro uid' hmem
      exact hs uid' hmem
    · intro a ha
      rcases List.mem_append.mp ha with hold | hnew
      · exact hf a hold
      · have hvals : a = ⟨_, uid, title, image_data, 0, now⟩ :=
          List.mem_singleton.mp hnew
        obtain ⟨usr, husr, hid⟩ := hs uid (List.getElem?_mem hsess)
        exact ⟨usr, husr, by rw [hvals]; exact hid⟩
  | like aid hr ih =>
    obtain ⟨hs, hf⟩ := ih
    exact ⟨fun uid hmem => hs uid hmem, like_artwork_fk _ _ hf⟩

/-- C7: in every application-reachable store state, every artwork's owner
id references an existing user row; in particular `save_artwork`, which is
only ever invoked with a logged-in session's user id, never creates an
artwork whose owner matches no user. -/
theorem reachable_artworks_fk {h : String → String} {s : AppState}
    (hr : Reachable h s) :
    ∀ a ∈ s.db.artworks, ∃ u ∈ s.db.users, u.id = a.user_id :=
  (reachable_inv hr).2

/-- C7 witness: in the state reached by signing up "asha", opening a
session, logging in, and saving one artwork, the saved artwork's owner id
references an existing user row. -/
theorem reachable_artworks_fk_witness :
    ∃ u ∈ (⟨⟨[⟨1, "asha", "pass123", 0⟩], [⟨1, 1, "Sunrise", "img", 0, 2⟩]⟩,
            [some 1]⟩ : AppState).db.users,
      u.id = (⟨1, 1, "Sunrise", "img", 0, 2⟩ : ArtworkRow).user_id := by
  have h1 : Reachable (fun x => x) ⟨⟨[], []⟩, []⟩ := Reachable.init
  have h2 := Reachable.signup 0 "asha" "pass123" h1
  have h3 := Reachable.newSession h2
  have h4 := Reachable.login 0 "asha" "pass123" 1 (by decide) h3
  have h5 := Reachable.save 0 1 2 "Sunrise" "img" (by decide) h4
  exact reachable_artworks_fk h5 ⟨1, 1, "Sunrise", "img", 0, 2⟩ (by decide)
